import Mathlib

/-!
Verification development for the `governor` operator orchestrator.

The definitions below are shallow embeddings of the Python runtime core:
  * `SharedMem`    — `governor/runtime/memory.py`, class `Memory._Shared`
  * `Memory`       — `governor/runtime/memory.py`, class `Memory`
  * string helpers — `governor/utils/helpers.py`
  * input parsing  — `governor/runtime/controller.py`, `_get_shared_parameter_as`
  * input compile  — `governor/runtime/controller.py`, `_compile_operator_input_params`
  * network build  — `governor/objects/network.py`, `Network._build` / `operator_tree`
  * the schedulers — `governor/runtime/controller.py`, `_run_sequential` /
                     `_run_parallel` / `_run_multiprocessing`
  * worker runs    — `governor/runtime/multiprocessing.py`, `OperatorProcess.run`
Python dictionaries keyed by strings are modelled as association lists in
insertion order; mutation is modelled by explicit state passing.
-/

namespace Governor

/-! ### Shared memory (`memory.py`, `Memory._Shared`)

The Python store keeps `self._data[id_] = {id_: data}` — an outer dict entry
holding a one-key inner dict under the same key, and every accessor goes
through `self._data[id_][id_]`; the nested wrapper is therefore observationally
a single binding `id_ ↦ data` and is modelled as one association-list entry. -/

def SharedMem (α : Type) : Type := List (String × α)

namespace SharedMem

/-- The underlying key lookup (`id_ in self._data` / `self._data[id_]`). -/
def lookup (m : SharedMem α) (k : String) : Option α :=
  match m with
  | [] => none
  | (k', v) :: rest => if k' = k then some v else lookup rest k

/-- `_Shared.exists`: `return id_ in self._data`. -/
def existsKey (m : SharedMem α) (k : String) : Bool :=
  (lookup m k).isSome

/-- `_Shared.add`: `if id_ not in self._data: self._data[id_] = {id_: data}`. -/
def add (m : SharedMem α) (k : String) (v : α) : SharedMem α :=
  if (lookup m k).isSome then m else (k, v) :: m

/-- `_Shared.get` (without the optional deep copy): returns the stored value,
or `None` when the identifier is absent. -/
def get (m : SharedMem α) (k : String) : Option α :=
  lookup m k

/-- Replace the binding of `k` (dict item assignment `self._data[id_][id_] = data`). -/
def setKey (m : SharedMem α) (k : String) (v : α) : SharedMem α :=
  match m with
  | [] => []
  | (k', v') :: rest => if k' = k then (k, v) :: rest else (k', v') :: setKey rest k v

/-- `_Shared.update`: overwrite if present, else insert iff `create`. -/
def update (m : SharedMem α) (k : String) (v : α) (create : Bool) : SharedMem α :=
  if (lookup m k).isSome then setKey m k v
  else if create then add m k v
  else m

/-- `_Shared.remove`: `if id_ in self._data: del self._data[id_]`. -/
def remove (m : SharedMem α) (k : String) : SharedMem α :=
  match m with
  | [] => []
  | (k', v') :: rest => if k' = k then rest else (k', v') :: remove rest k

end SharedMem

/-! ### `Memory` (`memory.py`)

`Memory` holds a `_Shared` handler and a `_Dedicated` handler (the latter keyed
by owner and identifier).  The `shared` property returns `self._shared`; the
`dedicated` property also returns `self._shared` (source line 54), not
`self._dedicated`.  The `last accessed` timestamps are bookkeeping with no
effect on the stores and are not modelled. -/

/-- `Memory._Dedicated._data`: owner ↦ (id ↦ data). -/
def DedicatedMem (α : Type) : Type := List (String × SharedMem α)

structure Memory (α : Type) where
  sharedData : SharedMem α
  dedicatedData : DedicatedMem α

namespace Memory

/-- Property `Memory.shared`: `return self._shared`. -/
def shared (m : Memory α) : SharedMem α := m.sharedData

/-- Property `Memory.dedicated`: the source returns `self._shared`. -/
def dedicated (m : Memory α) : SharedMem α := m.sharedData

end Memory

end Governor

/-! ## Theorems -/

namespace Governor

namespace SharedMem

theorem lookup_add_self (m : SharedMem α) (k : String) (v : α) :
    (lookup m k).isSome = false → lookup (add m k v) k = some v := by
  intro h
  unfold add
  rw [h]
  simp [lookup]

theorem add_of_exists (m : SharedMem α) (k : String) (v : α) :
    (lookup m k).isSome = true → add m k v = m := by
  intro h
  unfold add
  rw [h]
  rfl

theorem lookup_setKey_self (m : SharedMem α) (k : String) (v : α) :
    (lookup m k).isSome = true → lookup (setKey m k v) k = some v := by
  induction m with
  | nil => intro h; simp [lookup] at h
  | cons hd tl ih =>
    intro h
    obtain ⟨k', v'⟩ := hd
    by_cases hk : k' = k
    · simp [setKey, lookup, hk]
    · simp only [setKey, lookup, if_neg hk] at h ⊢
      exact ih h

/-- After `update k v create=true` the store maps `k` to `v`. -/
theorem lookup_update_create (m : SharedMem α) (k : String) (v : α) :
    lookup (update m k v true) k = some v := by
  unfold update
  by_cases h : (lookup m k).isSome
  · rw [if_pos h]; exact lookup_setKey_self m k v h
  · rw [if_neg h, if_pos rfl]
    exact lookup_add_self m k v (by simpa using h)

/-- `update` with an unrelated key leaves the binding of `k` unchanged. -/
theorem lookup_update_other (m : SharedMem α) (k k' : String) (v : α) (c : Bool)
    (hne : k' ≠ k) : lookup (update m k' v c) k = lookup m k := by
  have hset : ∀ m' : SharedMem α, lookup (setKey m' k' v) k = lookup m' k := by
    intro m'
    induction m' with
    | nil => rfl
    | cons hd tl ih =>
      obtain ⟨a, b⟩ := hd
      by_cases ha : a = k'
      · subst ha
        simp [setKey, lookup, if_neg hne]
      · simp only [setKey, lookup, if_neg ha]
        by_cases hak : a = k
        · simp [hak]
        · simp only [if_neg hak]; exact ih
  have hadd : lookup (add m k' v) k = lookup m k := by
    unfold add
    by_cases h : (lookup m k').isSome
    · rw [if_pos h]
    · rw [if_neg h]; simp [lookup, if_neg hne]
  unfold update
  by_cases h : (lookup m k').isSome
  · rw [if_pos h]; exact hset m
  · rw [if_neg h]
    cases c
    · rfl
    · simpa using hadd

end SharedMem

/-- C7: `add(k, v)` inserts `v` when `k` is absent (afterwards `exists(k)` holds
and `get(k)` returns `v`) and is a no-op when `k` already exists: the entire
store, including the value previously bound to `k`, is unchanged. -/
theorem shared_add_insert_or_noop (m : SharedMem α) (k : String) (v : α) :
    (m.existsKey k = false →
      (m.add k v).existsKey k = true ∧ (m.add k v).get k = some v) ∧
    (m.existsKey k = true → m.add k v = m) := by
  constructor
  · intro h
    have h' : (SharedMem.lookup m k).isSome = false := h
    have hg := SharedMem.lookup_add_self m k v h'
    refine ⟨?_, hg⟩
    simp [SharedMem.existsKey, hg]
  · intro h
    exact SharedMem.add_of_exists m k v h

/-- Witness for C7 at concrete stores: inserting into an empty store binds the
key, and adding to a store that already holds the key changes nothing. -/
theorem shared_add_insert_or_noop_witness :
    (SharedMem.existsKey (SharedMem.add ([] : SharedMem Nat) "k" 7) "k" = true ∧
      SharedMem.get (SharedMem.add ([] : SharedMem Nat) "k" 7) "k" = some 7) ∧
    SharedMem.add ([("k", 5)] : SharedMem Nat) "k" 7 = [("k", 5)] :=
  ⟨(shared_add_insert_or_noop [] "k" 7).1 (by decide),
   (shared_add_insert_or_noop [("k", 5)] "k" 7).2 (by decide)⟩

/-! ### String helpers (`utils/helpers.py`)

Python strings are modelled as `List Char` so that all operations are
structurally recursive and kernel-evaluable; `String` wrappers convert at the
boundary.  `str.lower`/`str.upper` become character maps, `str.strip` drops
whitespace at both ends, and `sub in s` / `s.split(sub)` are implemented
directly (Python `split` scans left to right for non-overlapping occurrences
of a non-empty separator). -/

def lowerL (s : List Char) : List Char := s.map Char.toLower

def upperL (s : List Char) : List Char := s.map Char.toUpper

def stripL (s : List Char) : List Char :=
  ((s.dropWhile Char.isWhitespace).reverse.dropWhile Char.isWhitespace).reverse

/-- Python `sub in s` for a non-empty `sub`. -/
def containsSub (sub : List Char) : List Char → Bool
  | [] => sub.isPrefixOf []
  | c :: rest => sub.isPrefixOf (c :: rest) || containsSub sub rest

/-- Worker for `splitOnL`; the fuel is an upper bound on the number of steps
(one character or one separator occurrence is consumed per step). -/
def splitOnFuel (sep : List Char) : Nat → List Char → List Char → List (List Char)
  | 0, s, acc => [acc.reverse ++ s]
  | _ + 1, [], acc => [acc.reverse]
  | fuel + 1, c :: rest, acc =>
    if !sep.isEmpty && sep.isPrefixOf (c :: rest) then
      acc.reverse :: splitOnFuel sep fuel (List.drop sep.length (c :: rest)) []
    else
      splitOnFuel sep fuel rest (c :: acc)

/-- Python `s.split(sep)` for a non-empty separator. -/
def splitOnL (sep s : List Char) : List (List Char) :=
  splitOnFuel sep (s.length + 1) s []

/-- `helpers.string_splitter` with the caller's default `return_index = -1`:
a negative index fails the `return_index >= 0` test, so the split list itself
is returned; `None` when neither the lowercase nor the uppercase form of the
delimiter occurs in the string. -/
def stringSplitter (stringObject delimiter : List Char) : Option (List (List Char)) :=
  if containsSub (lowerL delimiter) stringObject then
    some (splitOnL (lowerL delimiter) stringObject)
  else if containsSub (upperL delimiter) stringObject then
    some (splitOnL (upperL delimiter) stringObject)
  else
    none

/-- `helpers.strings_contain_whitespace`: flags arguments containing a space
character (Python tests `" " in s`, the plain space only) and returns the
stripped strings. -/
def stringsContainWhitespace (strings : List (List Char)) : List (List Char) × Bool :=
  (strings.map stripL, strings.any (fun s => s.contains ' '))

/-- `Controller._get_shared_parameter_as`: split on the `" as "` instruction;
no occurrence returns the instruction paired with itself, a two-part split
whose raw parts are free of spaces returns the stripped parts, anything else
raises (`ValueError`, modelled as `.error`).  When the split has exactly two
parts the pair returned by `strings_contain_whitespace` is `([strip a, strip b],
flag)`, which is destructured here directly. -/
def getSharedParameterAs (instruction : List Char) : Except String (List Char × List Char) :=
  match stringSplitter instruction (" as ".toList) with
  | none => .ok (instruction, instruction)
  | some parts =>
    match parts with
    | [a, b] =>
      if (stringsContainWhitespace [a, b]).2 then
        .error "invalid format"
      else
        .ok (stripL a, stripL b)
    | _ => .error "invalid format"

/-- `String`-level wrapper of `getSharedParameterAs`. -/
def parseAs (s : String) : Except String (String × String) :=
  match getSharedParameterAs s.toList with
  | .ok (a, b) => .ok (String.mk a, String.mk b)
  | .error e => .error e

/-! ### Input compilation (`controller.py`, `_compile_operator_input_params`)

Only the string and list-of-strings forms of `shared_input_params` are
embedded (claim C6 concerns these); the mapping form initializes missing keys
and type-checks existing ones and is not needed here.  `input_params` is a
Python dict built by item assignment, modelled by `dictSet`. -/

/-- Python dict item assignment `d[k] = v`: replace an existing binding in
place, otherwise append the new binding. -/
def dictSet (l : List (String × α)) (k : String) (v : α) : List (String × α) :=
  if (SharedMem.lookup l k).isSome then SharedMem.setKey l k v else l ++ [(k, v)]

inductive CompileError where
  /-- `ValueError` from `_get_shared_parameter_as` (`InvalidInputSpec`). -/
  | invalidSpec : CompileError
  /-- `MemoryError`: shared input parameter does not exist in memory
  (`MissingSharedInput`). -/
  | missingShared : String → CompileError
deriving DecidableEq, Repr

/-- One string entry of `shared_input_params`: extract the `AS` instruction,
require the source to exist in shared memory, and bind the stored value under
the alias. -/
def compileSharedEntry (mem : SharedMem α) (params : List (String × α))
    (entry : String) : Except CompileError (List (String × α)) :=
  match parseAs entry with
  | .error _ => .error .invalidSpec
  | .ok (src, al) =>
    match mem.get src with
    | some v => .ok (dictSet params al v)
    | none => .error (.missingShared src)

/-- `_compile_operator_input_params` restricted to the string and
list-of-strings branches: start from the dedicated parameters and process the
shared input specification. -/
def compileOperatorInputParams (mem : SharedMem α)
    (dedicated : List (String × α)) (sharedInput : Option (String ⊕ List String)) :
    Except CompileError (List (String × α)) :=
  match sharedInput with
  | none => .ok dedicated
  | some (.inl s) => compileSharedEntry mem dedicated s
  | some (.inr l) => l.foldlM (compileSharedEntry mem) dedicated

/-- Whether a single `shared_input_params` entry passes compilation: it parses
and its source exists in shared memory. -/
def entryOk (mem : SharedMem α) (e : String) : Bool :=
  match parseAs e with
  | .ok (src, _) => mem.existsKey src
  | .error _ => false

/-! ### Network construction (`objects/network.py`)

`Network._Link.source` holds either an operator id string or, for a
`run_after` list rewrite, the list itself; targets are always id strings.
The `label` field is never set by `_build` and is omitted. -/

inductive Src where
  | one : String → Src
  | many : List String → Src
deriving DecidableEq, Repr

structure Link where
  source : Src
  target : String
deriving DecidableEq, Repr

/-- The operator configuration fields read by the runtime core.  `idOpt` is
the Python `id_` key (absent means auto-generated); the remaining fields carry
the defaults of `io/types.py` (`config_payload_operator_parameters`) when the
user leaves them out, which is how `ConfigReader` materializes them. -/
structure OpSpec where
  idOpt : Option String
  runAfter : Option (String ⊕ List String)
  saveOutput : Bool
  sharedOutputName : Option String
  repeatN : Nat
  reinitializeInRepeats : Bool
deriving DecidableEq, Repr

/-- The `ConfigReader` defaults: `run_after = None`, `save_output = False`,
`shared_output_name = None`, `repeat = 1`, `reinitialize_in_repeats = True`. -/
def defaultOpSpec : OpSpec := ⟨none, none, false, none, 1, true⟩

/-- `Network._null_operator_id`. -/
def nullOperatorId : String := "__null__"

/-- The `self._operators` dict: the null operator maps to `None`, user
operators to their configuration reader. -/
def Operators : Type := List (String × Option OpSpec)

/-- The id-creation and registration loop of `_build` (`_operator_id`):
an explicit `id_` is rejected when already registered, otherwise a fresh token
is drawn from the supply.  The source's `_create_id` collision retry discards
its recursive result and returns the first token regardless, so exactly one
token is consumed per missing `id_`. -/
def registerGo (supply : Nat → String) :
    List OpSpec → Nat → List String → Operators →
    Except String (List String × Operators)
  | [], _, ids, ops => .ok (ids, ops)
  | cfg :: rest, n, ids, ops =>
    match cfg.idOpt with
    | some i =>
      if (SharedMem.lookup ops i).isSome then
        .error "duplicate user-defined operator identifier"
      else
        registerGo supply rest n (ids ++ [i]) (dictSet ops i (some cfg))
    | none =>
      registerGo supply rest (n + 1) (ids ++ [supply n]) (dictSet ops (supply n) (some cfg))

/-- The initial chain `L[i-1] -> L[i]` built with "run_after blindness". -/
def chainEdges : List String → List Link
  | [] => []
  | [_] => []
  | a :: b :: rest => ⟨Src.one a, b⟩ :: chainEdges (b :: rest)

/-- `self._operators[edge.target].run_after`: `ConfigReader` defaults give
every user operator a `run_after` attribute (defaulting to `None`), so the
`exists("run_after")` guard in `_build` is always true for edge targets, and a
`None` value falls through both `isinstance` branches. -/
def runAfterOf (ops : Operators) (t : String) : Option (String ⊕ List String) :=
  match SharedMem.lookup ops t with
  | some (some cfg) => cfg.runAfter
  | _ => none

/-- One prepared edge rewrite: `insert_edge`, `remove_edge`, `update_edge`. -/
structure EdgeUpdate where
  insertPos : Nat
  insertLink : Link
  removeIdx : Nat
  updateIdx : Nat
deriving DecidableEq, Repr

/-- `insert_edge = idx__+1, Link(...)`; `remove_edge = idx_+1 if idx__ < idx_
else idx_`; `update_edge = remove_edge`. -/
def mkUpdate (idx2 idx1 : Nat) (link : Link) : EdgeUpdate :=
  ⟨idx2 + 1, link, if idx2 < idx1 then idx1 + 1 else idx1, if idx2 < idx1 then idx1 + 1 else idx1⟩

/-- The inner scan of the single-string `run_after` branch at outer edge index
`idx1`.  A source match prepares and breaks (`update_now`) unless the next
edge has the same source (`continue`); a target match sets `update_later` and
from then on every non-skipped iteration re-prepares with its own index, as in
the source, where the preparation block runs whenever either flag is set. -/
def scanSingleGo (edges : List Link) (nEdges idx1 : Nat) (expected target : String) :
    List (Nat × Link) → Bool → Option EdgeUpdate → Option EdgeUpdate
  | [], _, acc => acc
  | (idx2, e) :: rest, updLater, acc =>
    if idx2 = idx1 then
      scanSingleGo edges nEdges idx1 expected target rest updLater acc
    else if e.source = Src.one expected then
      if idx2 + 1 < nEdges ∧ (edges.getD (idx2 + 1) ⟨Src.one "", ""⟩).source = Src.one expected then
        scanSingleGo edges nEdges idx1 expected target rest updLater acc
      else
        some (mkUpdate idx2 idx1 ⟨Src.one expected, target⟩)
    else if e.target = expected then
      scanSingleGo edges nEdges idx1 expected target rest true
        (some (mkUpdate idx2 idx1 ⟨Src.one expected, target⟩))
    else if updLater then
      scanSingleGo edges nEdges idx1 expected target rest true
        (some (mkUpdate idx2 idx1 ⟨Src.one expected, target⟩))
    else
      scanSingleGo edges nEdges idx1 expected target rest false acc

/-- The inner scan of the list `run_after` branch: count edges whose (string)
source belongs to the expected list (a list-valued source never equals a
string in Python) and prepare once the count reaches the list length. -/
def scanMultiGo (idx1 : Nat) (expected : List String) (target : String) :
    List (Nat × Link) → Nat → Option EdgeUpdate
  | [], _ => none
  | (idx2, e) :: rest, found =>
    if (match e.source with
        | Src.one s => expected.contains s
        | Src.many _ => false) then
      if found + 1 = expected.length then
        some (mkUpdate idx2 idx1 ⟨Src.many expected, target⟩)
      else
        scanMultiGo idx1 expected target rest (found + 1)
    else
      scanMultiGo idx1 expected target rest found

/-- One evaluation pass over the edges (the outer `for idx_, edge` loop of a
rewrite round): stop at the first edge producing a prepared update. -/
def evalPassGo (ops : Operators) (edges : List Link) (nEdges : Nat) :
    List (Nat × Link) → Option EdgeUpdate
  | [] => none
  | (idx1, e) :: rest =>
    match runAfterOf ops e.target with
    | none => evalPassGo ops edges nEdges rest
    | some (.inl u) =>
      if e.source = Src.one u then
        evalPassGo ops edges nEdges rest
      else
        match scanSingleGo edges nEdges idx1 u e.target edges.enum false none with
        | some upd => some upd
        | none => evalPassGo ops edges nEdges rest
    | some (.inr l) =>
      match scanMultiGo idx1 l e.target edges.enum 0 with
      | some upd => some upd
      | none => evalPassGo ops edges nEdges rest

/-- Apply a prepared update: insert, delete, and — when `update_edge` is in
range and the edge there now starts at the inserted target — reconnect its
source to the previous edge's target (`edges[update_edge-1]`; for index 0 the
Python negative index wraps to the last edge). -/
def applyUpdate (nEdges : Nat) (edges : List Link) (u : EdgeUpdate) : List Link :=
  let es1 := edges.insertIdx u.insertPos u.insertLink
  let es2 := es1.eraseIdx u.removeIdx
  if u.updateIdx < nEdges then
    let ed := es2.getD u.updateIdx ⟨Src.one "", ""⟩
    if (match ed.source with
        | Src.one s => s == u.insertLink.target
        | Src.many _ => false) then
      let j := if u.updateIdx = 0 then es2.length - 1 else u.updateIdx - 1
      es2.set u.updateIdx ⟨Src.one (es2.getD j ⟨Src.one "", ""⟩).target, ed.target⟩
    else
      es2
  else
    es2

/-- One round of the `for _ in range(n_edges)` rewrite loop. -/
def rewriteRound (ops : Operators) (nEdges : Nat) (edges : List Link) : List Link :=
  match evalPassGo ops edges nEdges edges.enum with
  | none => edges
  | some u => applyUpdate nEdges edges u

/-- `Network._build`: register operators, prepend the null operator (rejecting
a use of the protected identifier), lay the declaration-order chain, then run
`n_edges` rewrite rounds. -/
def networkBuild (config : List OpSpec) (supply : Nat → String) :
    Except String (Operators × List Link) :=
  match registerGo supply config 0 [] [] with
  | .error e => .error e
  | .ok (ids, ops) =>
    if (SharedMem.lookup ops nullOperatorId).isSome then
      .error "protected identifier for null operator used"
    else
      let ids2 := nullOperatorId :: ids
      let ops2 := dictSet ops nullOperatorId none
      let edges0 := chainEdges ids2
      let n := edges0.length
      .ok (ops2, (List.range n).foldl (fun es _ => rewriteRound ops2 n es) edges0)

/-- `Network.operator_tree` for the multi-operator case (the single-operator
branch is unreachable because the null operator is always registered besides
at least one user operator).  Processing an edge whose source is a `run_after`
list raises `TypeError` in Python (`edge.source in tree_` hashes the list);
otherwise the first edge of each source collects all targets of that source
from its position onward. -/
def operatorTreeGo : List Link → List (String × List String) →
    Except String (List (String × List String))
  | [], acc => .ok acc
  | e :: rest, acc =>
    match e.source with
    | Src.many _ => .error "TypeError: unhashable type: list"
    | Src.one s =>
      if (SharedMem.lookup acc s).isSome then
        operatorTreeGo rest acc
      else
        operatorTreeGo rest (acc ++
          [(s, (e :: rest).filterMap fun e2 =>
            if e2.source = e.source then some e2.target else none)])

def operatorTree (edges : List Link) : Except String (List (String × List String)) :=
  operatorTreeGo edges []

/-! ### The parallel engine (`controller.py`, `_run_parallel` /
`_run_multiprocessing`; `job.py`; the processors of `multiprocessing.py`)

The process machinery is abstracted to its observable interface: dispatching
a job spawns one worker (appended to `spawnLog`), and a harvest processes a
chosen list of completed operators exactly as the body of the `while block`
loop does.  No value ever travels through a return queue: a worker with a
return queue dies evaluating `operator.run().response` before its `put` (see
`workerRun` below), so the queues stay empty, and the controller's
`return_value` call — `queue.get()` on an empty queue — would block the
scheduler forever; `harvestOne` returns `none` for that branch.
`Jobs.num_jobs`, used only to decide the tail recursion, is not defined in
`job.py` (its length is evident); concrete runs below simply iterate rounds
until no job remains. -/

structure EngineEnv (α : Type) where
  /-- `Controller._tree` from `operator_tree`. -/
  tree : List (String × List String)
  /-- `self._network.operators[id_]` (`None` exactly for the null operator). -/
  cfgOf : String → Option OpSpec

/-- `Job` (`job.py`): the constructor sets `self._repeat = 1` — the
configuration's `repeat` value is never copied into the job — and
`self._online = False`. -/
structure JobR where
  id : String
  online : Bool
  repeatLeft : Nat
deriving DecidableEq, Repr

structure EngState (α : Type) where
  jobs : List JobR
  completed : List String
  mem : SharedMem α
  spawnLog : List String

def lookupTree (tree : List (String × List String)) (k : String) : Option (List String) :=
  SharedMem.lookup tree k

/-- `Controller._run_parallel`: seed one job per successor of the null
operator in the tree (each with `online = False` and repeat counter 1 from
`Job.__init__`). -/
def initState (env : EngineEnv α) (mem0 : SharedMem α) : EngState α :=
  ⟨((lookupTree env.tree nullOperatorId).getD []).map (fun i => ⟨i, false, 1⟩), [], mem0, []⟩

/-- The `run_after` blocking test of `_run_multiprocessing` against the
`self._completed` ledger. -/
def runAfterBlocked (env : EngineEnv α) (completed : List String) (j : JobR) : Bool :=
  match ((env.cfgOf j.id).getD defaultOpSpec).runAfter with
  | none => false
  | some (.inl u) => !(completed.contains u)
  | some (.inr l) => !(l.all fun u => completed.contains u)

/-- `if block or job.online: continue` — a job is dispatched iff it is not
online and (on the initial call, where the `run_after` check is skipped, or)
not blocked. -/
def shouldDispatch (env : EngineEnv α) (isInit : Bool) (completed : List String)
    (j : JobR) : Bool :=
  !j.online && (isInit || !(runAfterBlocked env completed j))

/-- The dispatch phase of one `_run_multiprocessing` call: mark every
dispatchable job online and start one worker process for it. -/
def dispatchF (env : EngineEnv α) (isInit : Bool) (st : EngState α) : EngState α :=
  { st with
    jobs := st.jobs.map (fun j =>
      if shouldDispatch env isInit st.completed j then ⟨j.id, true, j.repeatLeft⟩ else j),
    spawnLog := st.spawnLog ++
      (st.jobs.filter (shouldDispatch env isInit st.completed)).map (fun j => j.id) }

/-- The ids of the jobs the dispatch phase sends to workers. -/
def dispatchedIds (env : EngineEnv α) (isInit : Bool) (st : EngState α) : List String :=
  (st.jobs.filter (shouldDispatch env isInit st.completed)).map fun j => j.id

/-- Modelled from the spec: `Job.completed_repetition` is invoked by the
controller (`jobs.get(id_).completed_repetition()`) but no such method exists
in `runtime/job.py`; per the spec's scheduler pseudocode
(`job[id].remaining_repeats -= 1`) it decrements the remaining repeat count by
one, the `repeat` setter clamping negatives at zero. -/
def completedRepetition (j : JobR) : JobR := ⟨j.id, j.online, j.repeatLeft - 1⟩

/-- Processing of one completed operator inside the `while block` loop.  For
an operator with `save_output` set the controller calls
`processors.get(id_, by_operator=True).return_value(id_)`, a `queue.get()` on
the operator's return queue — but such a worker died before its `put` (and
before setting `done`, so it cannot actually appear among `done_operators()`
in the first place), hence the queue is empty and the scheduler blocks
forever; this branch is modelled as divergence (`none`), and the store write
at controller.py 314-316 is never reached.  Otherwise the repeat counter is
decremented and the job either goes back offline for a re-launch or its
completion is registered, jobs are created for tree successors not already
present, and the job is deleted. -/
def harvestOne (env : EngineEnv α) (st : EngState α) (oid : String) :
    Option (EngState α) :=
  match st.jobs.find? (fun j => j.id == oid) with
  | none => some st
  | some j =>
    let cfg := (env.cfgOf oid).getD defaultOpSpec
    if cfg.saveOutput then
      none
    else
      let r := (completedRepetition j).repeatLeft
      if 0 < r then
        some { st with
          jobs := st.jobs.map (fun j2 => if j2.id == oid then ⟨oid, false, r⟩ else j2) }
      else
        let succs := (lookupTree env.tree oid).getD []
        let newIds := succs.foldl (fun acc nx =>
          if st.jobs.any (fun j2 => j2.id == nx) || acc.contains nx then acc
          else acc ++ [nx]) []
        some { st with
          jobs := (st.jobs.filter (fun j2 => !(j2.id == oid))) ++
            newIds.map (fun nx => ⟨nx, false, 1⟩),
          completed := st.completed ++ [oid] }

/-- One harvest sweep over a list of completed operators (the loop over
`new_completed_opeartors`; operators no longer in the job registry are
skipped, as the controller intersects with `jobs.all` first).  `none`
propagates the blocked-forever outcome of `harvestOne`. -/
def harvestF (env : EngineEnv α) (st : EngState α) (done : List String) :
    Option (EngState α) :=
  done.foldlM (harvestOne env) st

/-- The ids of currently online jobs — the completions a full harvest of all
running workers would deliver. -/
def onlineIds (st : EngState α) : List String :=
  (st.jobs.filter fun j => j.online).map fun j => j.id

/-- The states the parallel engine can reach: the seeded initial state, a
dispatch phase (initial or recursive call), or a harvest of any list of
finished operators that does not block the scheduler. -/
inductive Reach (env : EngineEnv α) (mem0 : SharedMem α) : EngState α → Prop where
  | init : Reach env mem0 (initState env mem0)
  | dispatch (s : EngState α) (b : Bool) :
      Reach env mem0 s → Reach env mem0 (dispatchF env b s)
  | harvest (s : EngState α) (done : List String) (s2 : EngState α) :
      Reach env mem0 s → harvestF env s done = some s2 → Reach env mem0 s2

/-- The edge pairs `(source, target)` induced by a successor tree. -/
def pairsOf (tree : List (String × List String)) : List (String × String) :=
  tree.flatMap fun p => p.2.map fun t => (p.1, t)

/-- The predecessors of `v` in the graph described by the tree. -/
def predsIn (tree : List (String × List String)) (v : String) : List String :=
  (pairsOf tree).filterMap fun p => if p.2 = v then some p.1 else none

/-- The scheduler's dispatch-safety invariant: every registered job has all
its graph predecessors completed, except for the synthetic null root. -/
def jobsInv (env : EngineEnv α) (s : EngState α) : Prop :=
  ∀ j ∈ s.jobs, ∀ u ∈ predsIn env.tree j.id, u ∈ s.completed ∨ u = nullOperatorId

/-! ### The sequential runner (`controller.py`, `_run_sequential`)

`Operator.run` (operator.py 173-207) stores its result in `self._response`
but contains **no return statement**, so the call evaluates to `None` — and
`Operator` exposes no `response` property in any case.  Both branches of the
sequential loop body evaluate `operator.run().response`
(controller.py 202 and 204), which therefore raises `AttributeError` before
any store write. -/

/-- The exception message of any `operator.run().response` evaluation. -/
def responseAttributeError : String :=
  "AttributeError: NoneType object has no attribute response"

/-- One operator of the sequential loop: the null operator's `None`
configuration is skipped; otherwise the `while runs > 0` loop evaluates
`operator.run().response` at its first iteration and the `AttributeError`
aborts the whole sequential run — no memory update is ever executed.  (An
operator whose `run` raises crashes the loop with `RuntimeError` instead;
either way it never gets further.) -/
def seqRunOne (env : EngineEnv α) (mem : SharedMem α) (oid : String) :
    Except String (SharedMem α) :=
  match env.cfgOf oid with
  | none => .ok mem
  | some cfg =>
    if 0 < cfg.repeatN then .error responseAttributeError
    else .ok mem

/-- `_run_sequential` over the operator sequence. -/
def seqRun (env : EngineEnv α) (mem : SharedMem α) (ids : List String) :
    Except String (SharedMem α) :=
  ids.foldlM (seqRunOne env) mem

/-! ### Worker runs (`multiprocessing.py`, `OperatorProcess.run`)

`Operator.run` either completes (storing the response internally and
returning `None`) or re-raises every exception as `RuntimeError` after
recording `self._exception`; the worker catches exactly `RuntimeError`.  The
standby/start events are not modelled (the controller never passes a standby
event, and `started` carries no data).  Metadata is opaque here (`μ`). -/

structure OperatorM (α : Type) where
  /-- Outcome of `operator.run()`: the run completes, leaving the response
  of type `α` in the inaccessible `self._response`, or raises
  `RuntimeError`.  The call itself returns `None` in both cases. -/
  runResult : Except Unit α
  /-- `Operator._exception`, exposed by the property `exception`. -/
  exceptionMsg : String

/-- Python attribute lookup on the operator for the names the worker uses:
only `exception` exists; any other name raises `AttributeError`. -/
def operatorAttr (op : OperatorM α) (name : String) : Option String :=
  if name = "exception" then some op.exceptionMsg else none

/-- The Python expression `operator.run().response`: after a completed `run`
the attribute access dereferences `None` and raises `AttributeError` (see the
section comment above); a `RuntimeError` raised by `run` itself propagates
first.  The expression never yields a value. -/
def runResponse (op : OperatorM α) : Except String α :=
  match op.runResult with
  | .error _ => .error "RuntimeError"
  | .ok _ => .error responseAttributeError

structure WorkerOutcome (α μ : Type) where
  /-- Contents of the return queue after the run. -/
  queue : List ((α ⊕ String) × μ)
  errorEvent : Bool
  doneEvent : Bool
  /-- An exception that escaped `run` (killing the process before
  `done_event.set()`), if any. -/
  uncaught : Option String
deriving DecidableEq, Repr

/-- `OperatorProcess.run`.  Without a return queue, `_ = self._operator.run()`
completes and `done` is set.  With a return queue, the success path evaluates
the `put` argument `self._operator.run().response` — which raises
`AttributeError` (`run` returns `None`), uncaught by `except RuntimeError` —
so nothing is enqueued and `done` is never set; the intended enqueue is the
dead `.ok` branch of `runResponse`.  On a `RuntimeError` the handler
evaluates `self._operator.exceptione` — the `Operator` property is named
`exception` — so a second `AttributeError` escapes and again nothing is
enqueued and neither `error_event` nor `done_event` is ever set. -/
def workerRun (op : OperatorM α) (meta : μ) (hasQueue : Bool) : WorkerOutcome α μ :=
  if hasQueue then
    match op.runResult with
    | .ok _ =>
      match runResponse op with
      | .ok v => ⟨[(Sum.inl v, meta)], false, true, none⟩
      | .error e => ⟨[], false, false, some e⟩
    | .error _ =>
      match operatorAttr op "exceptione" with
      | some msg => ⟨[(Sum.inr msg, meta)], true, true, none⟩
      | none => ⟨[], false, false, some "AttributeError: exceptione"⟩
  else
    match op.runResult with
    | .ok _ => ⟨[], false, true, none⟩
    | .error _ => ⟨[], false, false, some "AttributeError: put on None"⟩

/-! ### Concrete scenario environments used by the claim theorems -/

/-- The configuration `[A, B{run_after: "Z"}]` — `Z` names no operator; the
config loader's run-after existence test is a `TODO` in `io/config.py`, so
this validates. -/
def configZ : List OpSpec :=
  [⟨some "A", none, false, none, 1, true⟩,
   ⟨some "B", some (.inl "Z"), false, none, 1, true⟩]

/-- The cyclic configuration `[A{run_after: B}, B{run_after: A}]` of S6. -/
def configCyc : List OpSpec :=
  [⟨some "A", some (.inl "B"), false, none, 1, true⟩,
   ⟨some "B", some (.inl "A"), false, none, 1, true⟩]

/-- A single operator without a user id (its identifier is auto-generated). -/
def configAnon : List OpSpec := [⟨none, none, false, none, 1, true⟩]

/-- Engine environment for `configZ` (its tree is proved below to be the one
`operator_tree` yields for the built edges). -/
def envZ : EngineEnv Nat :=
  ⟨[(nullOperatorId, ["A"]), ("A", ["B"])],
   fun s => if s = "A" then some ⟨some "A", none, false, none, 1, true⟩
     else if s = "B" then some ⟨some "B", some (.inl "Z"), false, none, 1, true⟩
     else none⟩

/-- The reachable `configZ` state after the initial dispatch of `A` and the
harvest of its completion (`A` has `save_output = false`, so its worker runs
the queue-less path, sets `done`, and the harvest succeeds). -/
def stZ : EngState Nat :=
  (harvestF envZ (dispatchF envZ true (initState envZ [])) ["A"]).getD
    (initState envZ [])

/-- Engine environment for a single operator `A` configured with
`repeat = 2` (and `save_output = false`). -/
def envRepeat : EngineEnv Nat :=
  ⟨[(nullOperatorId, ["A"])],
   fun s => if s = "A" then some ⟨some "A", none, false, none, 2, true⟩ else none⟩

/-- The `envRepeat` run to completion: initial dispatch, then one harvest of
everything online; afterwards no job remains, so the recursion stops. -/
def stRepeat : EngState Nat :=
  let s1 := dispatchF envRepeat true (initState envRepeat [])
  (harvestF envRepeat s1 (onlineIds s1)).getD s1

/-- An operator whose `run()` raises (re-raised as `RuntimeError`), with the
exception trace recorded in `_exception`. -/
def failingOp : OperatorM Nat := ⟨.error (), "ZeroDivisionError"⟩

/-- An operator whose `run()` stores the response `7`. -/
def okOp : OperatorM Nat := ⟨.ok 7, ""⟩

/-- Environment with one operator `A` having `save_output = true` and
`shared_output_name = "x"` (scenario S4's writer). -/
def envS : EngineEnv Nat :=
  ⟨[(nullOperatorId, ["A"])],
   fun s => if s = "A" then some ⟨some "A", none, true, some "x", 1, true⟩ else none⟩

/-- C10: the public `dedicated` property returns the very same shared-memory
handler that the `shared` property returns, so a value added through dedicated
access is readable through shared access and vice versa. -/
theorem memory_dedicated_eq_shared (m : Memory α) :
    m.dedicated = m.shared ∧
    (∀ k v, ((m.dedicated.add k v) : SharedMem α).get k =
      ((m.shared.add k v) : SharedMem α).get k) := by
  exact ⟨rfl, fun _ _ => rfl⟩

/-- C4 counterexample: the claim says `"xAS y"` (no surrounding spaces) and
`"x AS "` (empty second token) raise `InvalidInputSpec`; in the source neither
raises — a string without the delimiter is returned paired with itself, and
emptiness of the split tokens is never checked. -/
theorem parse_as_claim_counterexample :
    parseAs "x AS " = .ok ("x", "") ∧
    parseAs "xAS y" = .ok ("xAS y", "xAS y") :=
  ⟨rfl, rfl⟩

/-- C4 amended: splitting happens on the lowercase delimiter `" as "` if it
occurs, else on the uppercase `" AS "`.  Two-part splits whose raw parts
contain no space return the stripped parts — emptiness is not checked, so
`"x AS "` yields `("x", "")`.  A string containing neither delimiter form is
returned paired with itself, so `"xAS y"` yields `("xAS y", "xAS y")`.  Only a
split with a spaced part or with more than two parts raises
`InvalidInputSpec`.  The positive cases of the claim hold as stated. -/
theorem parse_as_characterization :
    parseAs "x AS y" = .ok ("x", "y") ∧
    parseAs "x as y" = .ok ("x", "y") ∧
    parseAs "x" = .ok ("x", "x") ∧
    parseAs "xAS y" = .ok ("xAS y", "xAS y") ∧
    parseAs "x AS " = .ok ("x", "") ∧
    parseAs "a b AS c" = .error "invalid format" ∧
    parseAs "x AS y AS z" = .error "invalid format" :=
  ⟨rfl, rfl, rfl, rfl, rfl, rfl, rfl⟩

/-- Unfolding of `compileSharedEntry` once the entry is known to parse. -/
theorem compileSharedEntry_parsed (mem : SharedMem α) (p : List (String × α))
    (e src al : String) (hp : parseAs e = .ok (src, al)) :
    compileSharedEntry mem p e =
      match mem.get src with
      | some v => .ok (dictSet p al v)
      | none => .error (.missingShared src) := by
  unfold compileSharedEntry
  rw [hp]

theorem dictSet_lookup_self (p : List (String × α)) (k : String) (v : α) :
    SharedMem.lookup (dictSet p k v) k = some v := by
  unfold dictSet
  by_cases h : (SharedMem.lookup p k).isSome
  · rw [if_pos h]
    exact SharedMem.lookup_setKey_self p k v h
  · rw [if_neg h]
    induction p with
    | nil => simp [SharedMem.lookup]
    | cons hd tl ih =>
      obtain ⟨a, b⟩ := hd
      by_cases ha : a = k
      · subst ha; simp [SharedMem.lookup] at h
      · simp only [SharedMem.lookup, if_neg ha] at h
        simpa [SharedMem.lookup, if_neg ha] using ih h

theorem dictSet_lookup_other (p : List (String × α)) (k k' : String) (v : α)
    (hne : k ≠ k') : SharedMem.lookup (dictSet p k v) k' = SharedMem.lookup p k' := by
  unfold dictSet
  by_cases h : (SharedMem.lookup p k).isSome
  · rw [if_pos h]
    induction p with
    | nil => rfl
    | cons hd tl ih =>
      obtain ⟨a, b⟩ := hd
      by_cases ha : a = k
      · subst ha
        simp [SharedMem.setKey, SharedMem.lookup, if_neg hne]
      · simp only [SharedMem.setKey, SharedMem.lookup, if_neg ha] at h ⊢
        by_cases ha' : a = k'
        · simp [ha']
        · simp only [if_neg ha']
          exact ih h
  · rw [if_neg h]
    induction p with
    | nil => simp [SharedMem.lookup, if_neg hne]
    | cons hd tl ih =>
      obtain ⟨a, b⟩ := hd
      by_cases ha : a = k
      · subst ha; simp [SharedMem.lookup] at h
      · simp only [SharedMem.lookup, if_neg ha] at h
        simp only [List.cons_append, SharedMem.lookup]
        by_cases ha' : a = k'
        · simp [ha']
        · simp only [if_neg ha']
          exact ih h

theorem exceptBind_error {ε β γ : Type} (e : ε) (f : β → Except ε γ) :
    ((Except.error e : Except ε β) >>= f) = Except.error e := rfl

theorem exceptBind_ok {ε β γ : Type} (b : β) (f : β → Except ε γ) :
    ((Except.ok b : Except ε β) >>= f) = f b := rfl

/-- Success of the fold over a list of shared-input entries is pointwise. -/
theorem foldlM_entries_isOk (mem : SharedMem α) :
    ∀ (l : List String) (p : List (String × α)),
      (l.foldlM (compileSharedEntry mem) p).isOk = l.all (entryOk mem) := by
  intro l
  induction l with
  | nil => intro p; rfl
  | cons e rest ih =>
    intro p
    simp only [List.foldlM_cons, List.all_cons]
    match he : parseAs e with
    | .error msg =>
      rw [show compileSharedEntry mem p e = .error .invalidSpec by
            unfold compileSharedEntry; rw [he]]
      rw [exceptBind_error]
      simp only [entryOk, he, Bool.false_and]
      rfl
    | .ok (src, al) =>
      rw [compileSharedEntry_parsed mem p e src al he]
      match hg : mem.get src with
      | some v =>
        have hex : mem.existsKey src = true := by
          simp only [SharedMem.existsKey]
          have hl : SharedMem.lookup mem src = some v := hg
          rw [hl]; rfl
        simp only [entryOk, he, hex, Bool.true_and]
        exact ih (dictSet p al v)
      | none =>
        have hex : mem.existsKey src = false := by
          simp only [SharedMem.existsKey]
          have hl : SharedMem.lookup mem src = none := hg
          rw [hl]; rfl
        rw [exceptBind_error]
        simp only [entryOk, he, hex, Bool.false_and]
        rfl

/-- A fold that succeeds leaves an alias untouched by all processed entries
unchanged. -/
theorem foldlM_entries_preserves (mem : SharedMem α) :
    ∀ (l : List String) (p r : List (String × α)) (al : String),
      l.foldlM (compileSharedEntry mem) p = .ok r →
      (∀ e' src' al', e' ∈ l → parseAs e' = .ok (src', al') → al' ≠ al) →
      SharedMem.lookup r al = SharedMem.lookup p al := by
  intro l
  induction l with
  | nil =>
    intro p r al h _
    simp only [List.foldlM_nil] at h
    cases h
    rfl
  | cons e rest ih =>
    intro p r al h hal
    simp only [List.foldlM_cons] at h
    match he : parseAs e with
    | .error msg =>
      rw [show compileSharedEntry mem p e = .error .invalidSpec by
            unfold compileSharedEntry; rw [he]] at h
      rw [exceptBind_error] at h
      exact Except.noConfusion h
    | .ok (src, al') =>
      rw [compileSharedEntry_parsed mem p e src al' he] at h
      match hg : mem.get src with
      | some v =>
        rw [hg] at h
        have h' : List.foldlM (compileSharedEntry mem) (dictSet p al' v) rest =
            Except.ok r := h
        have hrest := ih (dictSet p al' v) r al h'
          (fun e' s' a' he' hp' => hal e' s' a' (List.mem_cons_of_mem _ he') hp')
        rw [hrest]
        exact dictSet_lookup_other p al' al v (hal e src al' (List.mem_cons_self _ _) he)
      | none =>
        rw [hg] at h
        rw [exceptBind_error] at h
        exact Except.noConfusion h

/-- C6: compiling a string-form shared input entry fails with
`MissingSharedInput` iff the store lacks the source key; when the key exists
its current value is bound under the alias.  For a list of such entries the
compilation succeeds iff every entry's source exists, and each element binds
its alias to the stored value provided no later element rebinds the alias. -/
theorem compile_missing_shared_iff (mem : SharedMem α) (ded : List (String × α)) :
    (∀ s src al, parseAs s = .ok (src, al) →
      ((compileOperatorInputParams mem ded (some (.inl s)) =
          .error (.missingShared src)) ↔ mem.existsKey src = false) ∧
      (∀ v, mem.get src = some v →
        compileOperatorInputParams mem ded (some (.inl s)) = .ok (dictSet ded al v))) ∧
    (∀ l : List String,
      ((compileOperatorInputParams mem ded (some (.inr l))).isOk = l.all (entryOk mem)) ∧
      (∀ l₁ e l₂ src al v r, l = l₁ ++ e :: l₂ → parseAs e = .ok (src, al) →
        mem.get src = some v →
        compileOperatorInputParams mem ded (some (.inr l)) = .ok r →
        (∀ e' src' al', e' ∈ l₂ → parseAs e' = .ok (src', al') → al' ≠ al) →
        SharedMem.lookup r al = some v)) := by
  constructor
  · intro s src al hp
    have hdef : compileOperatorInputParams mem ded (some (.inl s)) =
        compileSharedEntry mem ded s := rfl
    constructor
    · rw [hdef]
      rw [compileSharedEntry_parsed mem ded s src al hp]
      match hg : mem.get src with
      | some v =>
        have hex : mem.existsKey src = true := by
          simp only [SharedMem.existsKey]
          have : SharedMem.lookup mem src = some v := hg
          rw [this]; rfl
        constructor
        · intro h; cases h
        · intro h; rw [hex] at h; cases h
      | none =>
        have hex : mem.existsKey src = false := by
          simp only [SharedMem.existsKey]
          have : SharedMem.lookup mem src = none := hg
          rw [this]; rfl
        exact ⟨fun _ => hex, fun _ => rfl⟩
    · intro v hv
      rw [hdef]
      rw [compileSharedEntry_parsed mem ded s src al hp, hv]
  · intro l
    have hdef : compileOperatorInputParams mem ded (some (.inr l)) =
        l.foldlM (compileSharedEntry mem) ded := rfl
    constructor
    · rw [hdef]
      exact foldlM_entries_isOk mem l ded
    · intro l₁ e l₂ src al v r hl hp hv hr hlater
      rw [hdef, hl] at hr
      rw [List.foldlM_append] at hr
      match h₁ : l₁.foldlM (compileSharedEntry mem) ded with
      | .error msg =>
        rw [h₁] at hr
        rw [exceptBind_error] at hr
        exact Except.noConfusion hr
      | .ok q =>
        rw [h₁] at hr
        rw [exceptBind_ok] at hr
        rw [List.foldlM_cons] at hr
        rw [compileSharedEntry_parsed mem q e src al hp, hv] at hr
        rw [exceptBind_ok] at hr
        have hfin := foldlM_entries_preserves mem l₂ (dictSet q al v) r al hr hlater
        rw [hfin]
        exact dictSet_lookup_self q al v

/-- Witness for C6: with `x ↦ 42` stored, the entry `"x AS val"` binds `val`
to `42` on top of the dedicated parameter `y ↦ 1` (scenario S4), and the entry
`"z"` fails with the missing key `z`. -/
theorem compile_missing_shared_iff_witness :
    compileOperatorInputParams [("x", (42 : Nat))] [("y", 1)]
      (some (.inl "x AS val")) = .ok [("y", 1), ("val", 42)] ∧
    compileOperatorInputParams [("x", (42 : Nat))] []
      (some (.inl "z")) = .error (.missingShared "z") := by
  constructor
  · exact ((compile_missing_shared_iff [("x", 42)] [("y", 1)]).1 "x AS val" "x" "val"
      rfl).2 42 rfl
  · exact ((compile_missing_shared_iff [("x", 42)] []).1 "z" "z" "z" rfl).1.2 rfl

/-- C3: `Network._build` performs no cycle detection whatsoever.  For the
configuration `[A{run_after: B}, B{run_after: A}]` the build succeeds and
returns the cyclic edge list `[A → B, B → A]`; `operator_tree` then yields a
tree with no entry for the null operator, so `_run_parallel`'s seeding lookup
`self.tree[self._network.null_operator_id]` raises a `KeyError` — no
`CycleDetected` error exists anywhere in the source. -/
theorem network_build_cycle_not_rejected :
    (networkBuild configCyc (fun _ => "g")).toOption.map Prod.snd =
      some [⟨Src.one "A", "B"⟩, ⟨Src.one "B", "A"⟩] ∧
    (operatorTree [⟨Src.one "A", "B"⟩, ⟨Src.one "B", "A"⟩]).toOption =
      some [("A", ["B"]), ("B", ["A"])] ∧
    lookupTree [("A", ["B"]), ("B", ["A"])] nullOperatorId = none :=
  ⟨rfl, rfl, rfl⟩

/-- C9 counterexample: when an operator carries no user `id_`, the build draws
a random `token_urlsafe` identifier, so two builds from the same configuration
bytes produce different edge sets (here modelled by two token supplies). -/
theorem network_build_nondeterministic_counterexample :
    (networkBuild configAnon (fun _ => "X")).toOption.map Prod.snd =
      some [⟨Src.one nullOperatorId, "X"⟩] ∧
    (networkBuild configAnon (fun _ => "Y")).toOption.map Prod.snd =
      some [⟨Src.one nullOperatorId, "Y"⟩] ∧
    (networkBuild configAnon (fun _ => "X")).toOption.map Prod.snd ≠
      (networkBuild configAnon (fun _ => "Y")).toOption.map Prod.snd :=
  ⟨rfl, rfl, by decide⟩

/-- C9 amended: graph construction is deterministic whenever every operator
configuration carries an explicit `id_` — the build then never consults the
random token supply, and two builds from the same configuration produce
identical operator registries and identical edge lists (same sources, targets
and order). -/
theorem network_build_deterministic (config : List OpSpec) (s1 s2 : Nat → String)
    (h : ∀ cfg ∈ config, cfg.idOpt.isSome = true) :
    networkBuild config s1 = networkBuild config s2 := by
  have hreg : ∀ (rest : List OpSpec) (n1 n2 : Nat) (ids : List String) (ops : Operators),
      (∀ cfg ∈ rest, cfg.idOpt.isSome = true) →
      registerGo s1 rest n1 ids ops = registerGo s2 rest n2 ids ops := by
    intro rest
    induction rest with
    | nil => intro n1 n2 ids ops _; rfl
    | cons cfg rest ih =>
      intro n1 n2 ids ops hh
      have hc : cfg.idOpt.isSome = true := hh cfg (List.mem_cons_self _ _)
      match hI : cfg.idOpt with
      | some i =>
        simp only [registerGo, hI]
        by_cases hdup : (SharedMem.lookup ops i).isSome
        · rw [if_pos hdup, if_pos hdup]
        · rw [if_neg hdup, if_neg hdup]
          exact ih n1 n2 _ _ (fun c hc2 => hh c (List.mem_cons_of_mem _ hc2))
      | none => rw [hI] at hc; simp at hc
  unfold networkBuild
  rw [hreg config 0 0 [] [] h]

/-- Witness for C9: two different token supplies build the same network for a
configuration whose only operator has the explicit id `A`. -/
theorem network_build_deterministic_witness :
    networkBuild [⟨some "A", none, false, none, 1, true⟩] (fun _ => "X") =
      networkBuild [⟨some "A", none, false, none, 1, true⟩] (fun _ => "Y") :=
  network_build_deterministic [⟨some "A", none, false, none, 1, true⟩]
    (fun _ => "X") (fun _ => "Y") (by decide)

/-- C2: the parallel engine ignores the configured `repeat` value.
`Job.__init__` hardcodes the repeat counter to 1 and the controller never
copies `config.repeat` into the job, so an operator configured with
`repeat = 2` is spawned exactly once in a run that completes (its decrement to
0 at the first harvest immediately registers completion); moreover the
decrement itself is a call to the nonexistent `Job.completed_repetition`,
modelled here from the spec. -/
theorem repeat_ignored_in_parallel :
    ((envRepeat.cfgOf "A").getD defaultOpSpec).repeatN = 2 ∧
    stRepeat.spawnLog.count "A" = 1 ∧
    stRepeat.completed = ["A"] ∧
    stRepeat.jobs = [] := by
  refine ⟨rfl, ?_, rfl, rfl⟩
  decide

/-- C5: the SharedStore is never written in either mode.  Sequentially, the
loop body evaluates `operator.run().response` — `Operator.run` has no return
statement and no `response` property exists — so the run of the S4 writer `A`
aborts with `AttributeError` before any `update`.  In parallel mode `A`'s
worker (which has a return queue because `save_output` is set) dies on the
same expression before its `put` and before setting `done`, so nothing is
enqueued; and a harvest of such an operator would block the scheduler at the
empty return queue before reaching the store write, so the write at
controller.py 314-316 is unreachable.  The claim's promised mapping is never
established. -/
theorem save_output_never_written :
    seqRun envS [] ["A"] = .error responseAttributeError ∧
    workerRun okOp (0 : Nat) true = ⟨[], false, false, some responseAttributeError⟩ ∧
    harvestOne envS ⟨[⟨"A", true, 1⟩], [], [], ["A"]⟩ "A" = none :=
  ⟨rfl, rfl, rfl⟩

theorem pairs_of_lookup_mem (tree : List (String × List String)) (u : String)
    (l : List String) (v : String) (hl : lookupTree tree u = some l) (hv : v ∈ l) :
    (u, v) ∈ pairsOf tree := by
  induction tree with
  | nil => exact absurd hl (by simp [lookupTree, SharedMem.lookup])
  | cons hd rest ih =>
    obtain ⟨a, l0⟩ := hd
    have hl' : (if a = u then some l0 else SharedMem.lookup rest u) = some l := hl
    unfold pairsOf
    rw [List.flatMap_cons]
    by_cases ha : a = u
    · rw [if_pos ha] at hl'
      subst ha
      have hll : l0 = l := by injection hl'
      subst hll
      exact List.mem_append_left _ (List.mem_map.mpr ⟨v, hv, rfl⟩)
    · rw [if_neg ha] at hl'
      exact List.mem_append_right _ (ih hl')

theorem mem_predsIn_iff (tree : List (String × List String)) (v u : String) :
    u ∈ predsIn tree v ↔ (u, v) ∈ pairsOf tree := by
  unfold predsIn
  rw [List.mem_filterMap]
  constructor
  · rintro ⟨⟨u', v'⟩, hp, hf⟩
    dsimp only at hf
    by_cases hv : v' = v
    · subst hv
      rw [if_pos rfl] at hf
      have : u' = u := by injection hf
      subst this
      exact hp
    · rw [if_neg hv] at hf
      cases hf
  · intro hp
    exact ⟨(u, v), hp, by simp⟩

theorem pairs_snd_inj (tree : List (String × List String))
    (hnd : ((pairsOf tree).map Prod.snd).Nodup) {u1 u2 v : String}
    (h1 : (u1, v) ∈ pairsOf tree) (h2 : (u2, v) ∈ pairsOf tree) : u1 = u2 := by
  have heq := List.inj_on_of_nodup_map hnd h1 h2 rfl
  exact congrArg Prod.fst heq

/-- Elements accumulated by the successor-registration fold come from the
accumulator or the successor list. -/
theorem foldl_addIds_subset (P : String → Bool) :
    ∀ (succs acc : List String) (x : String),
      x ∈ succs.foldl (fun acc2 nx =>
        if P nx || acc2.contains nx then acc2 else acc2 ++ [nx]) acc →
      x ∈ acc ∨ x ∈ succs := by
  intro succs
  induction succs with
  | nil => intro acc x hx; exact Or.inl hx
  | cons nx rest ih =>
    intro acc x hx
    rw [List.foldl_cons] at hx
    rcases ih _ x hx with h | h
    · by_cases hc : P nx || acc.contains nx
      · rw [if_pos hc] at h
        exact Or.inl h
      · rw [if_neg hc] at h
        rcases List.mem_append.mp h with h2 | h2
        · exact Or.inl h2
        · exact Or.inr (by rw [List.mem_singleton.mp h2]; exact List.mem_cons_self _ _)
    · exact Or.inr (List.mem_cons_of_mem _ h)

theorem optionBind_none {β γ : Type} (f : β → Option γ) :
    ((none : Option β) >>= f) = none := rfl

theorem optionBind_some {β γ : Type} (b : β) (f : β → Option γ) :
    ((some b : Option β) >>= f) = f b := rfl

theorem harvestOne_none (env : EngineEnv α) (st : EngState α) (oid : String)
    (hfind : st.jobs.find? (fun j2 => j2.id == oid) = none) :
    harvestOne env st oid = some st := by
  unfold harvestOne
  rw [hfind]

theorem harvestOne_eq_save (env : EngineEnv α) (st : EngState α) (oid : String)
    (j : JobR) (hfind : st.jobs.find? (fun j2 => j2.id == oid) = some j)
    (hsave : ((env.cfgOf oid).getD defaultOpSpec).saveOutput = true) :
    harvestOne env st oid = none := by
  unfold harvestOne
  rw [hfind]
  simp only [hsave, if_true]

theorem harvestOne_eq_pos (env : EngineEnv α) (st : EngState α) (oid : String)
    (j : JobR) (hfind : st.jobs.find? (fun j2 => j2.id == oid) = some j)
    (hsave : ((env.cfgOf oid).getD defaultOpSpec).saveOutput = false)
    (hr : 0 < (completedRepetition j).repeatLeft) :
    harvestOne env st oid = some { st with jobs := st.jobs.map (fun j2 =>
      if j2.id == oid then ⟨oid, false, (completedRepetition j).repeatLeft⟩ else j2) } := by
  unfold harvestOne
  rw [hfind]
  simp only [hsave, if_pos hr]
  rfl

theorem harvestOne_eq_zero (env : EngineEnv α) (st : EngState α) (oid : String)
    (j : JobR) (hfind : st.jobs.find? (fun j2 => j2.id == oid) = some j)
    (hsave : ((env.cfgOf oid).getD defaultOpSpec).saveOutput = false)
    (hr : ¬ 0 < (completedRepetition j).repeatLeft) :
    harvestOne env st oid = some { st with
      jobs := (st.jobs.filter (fun j2 => !(j2.id == oid))) ++
        (((lookupTree env.tree oid).getD []).foldl (fun acc nx =>
          if st.jobs.any (fun j2 => j2.id == nx) || acc.contains nx then acc
          else acc ++ [nx]) []).map (fun nx => ⟨nx, false, 1⟩),
      completed := st.completed ++ [oid] } := by
  unfold harvestOne
  rw [hfind]
  simp only [hsave, if_neg hr]
  rfl

theorem jobsInv_init (env : EngineEnv α) (mem0 : SharedMem α)
    (hnd : ((pairsOf env.tree).map Prod.snd).Nodup) :
    jobsInv env (initState env mem0) := by
  intro j hj u hu
  rcases List.mem_map.mp hj with ⟨i, hi, rfl⟩
  match hl : lookupTree env.tree nullOperatorId with
  | none =>
    rw [hl] at hi
    cases hi
  | some l =>
    rw [hl] at hi
    simp only [Option.getD_some] at hi
    have hpair := pairs_of_lookup_mem env.tree nullOperatorId l i hl hi
    have hupair := (mem_predsIn_iff env.tree i u).mp hu
    exact Or.inr (pairs_snd_inj env.tree hnd hupair hpair)

theorem jobsInv_dispatch (env : EngineEnv α) (b : Bool) (st : EngState α)
    (hinv : jobsInv env st) : jobsInv env (dispatchF env b st) := by
  intro j2 hj2 u hu
  rcases List.mem_map.mp hj2 with ⟨j3, hj3, rfl⟩
  have hid : (if shouldDispatch env b st.completed j3 then
      (⟨j3.id, true, j3.repeatLeft⟩ : JobR) else j3).id = j3.id := by
    split
    · rfl
    · rfl
  rw [hid] at hu
  exact hinv j3 hj3 u hu

theorem jobsInv_harvestOne (env : EngineEnv α) (st : EngState α) (oid : String)
    (st2 : EngState α) (hnd : ((pairsOf env.tree).map Prod.snd).Nodup)
    (heq : harvestOne env st oid = some st2)
    (hinv : jobsInv env st) : jobsInv env st2 := by
  match hfind : st.jobs.find? (fun j2 => j2.id == oid) with
  | none =>
    rw [harvestOne_none env st oid hfind] at heq
    have hst : st = st2 := by injection heq
    subst hst
    exact hinv
  | some j =>
    match hsave : ((env.cfgOf oid).getD defaultOpSpec).saveOutput with
    | true =>
      rw [harvestOne_eq_save env st oid j hfind hsave] at heq
      exact Option.noConfusion heq
    | false =>
      by_cases hr : 0 < (completedRepetition j).repeatLeft
      · rw [harvestOne_eq_pos env st oid j hfind hsave hr] at heq
        injection heq with hst
        subst hst
        intro j2 hj2 u hu
        rcases List.mem_map.mp hj2 with ⟨j3, hj3, rfl⟩
        have hid : (if j3.id == oid then
            (⟨oid, false, (completedRepetition j).repeatLeft⟩ : JobR) else j3).id = j3.id := by
          by_cases hb : j3.id == oid
          · rw [if_pos hb]
            exact (eq_of_beq hb).symm
          · rw [if_neg hb]
        rw [hid] at hu
        exact hinv j3 hj3 u hu
      · rw [harvestOne_eq_zero env st oid j hfind hsave hr] at heq
        injection heq with hst
        subst hst
        intro j2 hj2 u hu
        rcases List.mem_append.mp hj2 with h | h
        · have hj2' : j2 ∈ st.jobs := List.mem_of_mem_filter h
          rcases hinv j2 hj2' u hu with hc | hn
          · exact Or.inl (List.mem_append_left _ hc)
          · exact Or.inr hn
        · rcases List.mem_map.mp h with ⟨nx, hnx, rfl⟩
          have hnx2 : nx ∈ ((lookupTree env.tree oid).getD []) := by
            rcases foldl_addIds_subset _ _ [] nx hnx with h0 | h0
            · cases h0
            · exact h0
          match hl : lookupTree env.tree oid with
          | none =>
            rw [hl] at hnx2
            cases hnx2
          | some l =>
            rw [hl] at hnx2
            simp only [Option.getD_some] at hnx2
            have hpair := pairs_of_lookup_mem env.tree oid l nx hl hnx2
            have hupair := (mem_predsIn_iff env.tree nx u).mp hu
            have := pairs_snd_inj env.tree hnd hupair hpair
            subst this
            exact Or.inl (List.mem_append_right _ (List.mem_singleton.mpr rfl))

theorem jobsInv_harvestF (env : EngineEnv α) (done : List String)
    (hnd : ((pairsOf env.tree).map Prod.snd).Nodup) :
    ∀ st st2 : EngState α, harvestF env st done = some st2 →
      jobsInv env st → jobsInv env st2 := by
  induction done with
  | nil =>
    intro st st2 heq hinv
    have hst : st = st2 := by injection heq
    subst hst
    exact hinv
  | cons oid rest ih =>
    intro st st2 heq hinv
    have heq2 : (harvestOne env st oid >>= fun s1 =>
        rest.foldlM (harvestOne env) s1) = some st2 := heq
    match h1 : harvestOne env st oid with
    | none =>
      rw [h1, optionBind_none] at heq2
      exact Option.noConfusion heq2
    | some s1 =>
      rw [h1, optionBind_some] at heq2
      exact ih s1 st2 heq2 (jobsInv_harvestOne env st oid s1 hnd h1 hinv)

/-- Every reachable engine state satisfies the dispatch-safety invariant. -/
theorem jobsInv_reach (env : EngineEnv α) (mem0 : SharedMem α) (s : EngState α)
    (hnd : ((pairsOf env.tree).map Prod.snd).Nodup) (hr : Reach env mem0 s) :
    jobsInv env s := by
  induction hr with
  | init => exact jobsInv_init env mem0 hnd
  | dispatch s2 b _ ih => exact jobsInv_dispatch env b s2 ih
  | harvest s2 done s3 _ heq ih => exact jobsInv_harvestF env done hnd s2 s3 heq ih

/-- C1 amended: in every reachable state of the parallel engine (over a tree
whose nodes have at most one predecessor, as `operator_tree` yields for the
graphs that survive network construction), every operator the dispatch phase
sends to a worker comes from a registered, non-online job that is either part
of the initial seeding or passes the `run_after ⊆ completed` check, and all
of its predecessors in the graph are completed (the synthetic null root
excepted).  The converse direction of the claimed readiness equivalence is
false: see the counterexample. -/
theorem dispatch_safety (env : EngineEnv α) (mem0 : SharedMem α) (s : EngState α)
    (hnd : ((pairsOf env.tree).map Prod.snd).Nodup)
    (hr : Reach env mem0 s) (b : Bool) (v : String)
    (hv : v ∈ dispatchedIds env b s) :
    (∃ j ∈ s.jobs, j.id = v ∧ j.online = false ∧
      (b = true ∨ runAfterBlocked env s.completed j = false)) ∧
    (∀ u ∈ predsIn env.tree v, u ∈ s.completed ∨ u = nullOperatorId) := by
  unfold dispatchedIds at hv
  rcases List.mem_map.mp hv with ⟨j, hjf, rfl⟩
  have hj : j ∈ s.jobs := List.mem_of_mem_filter hjf
  have hsd : shouldDispatch env b s.completed j = true := List.of_mem_filter hjf
  unfold shouldDispatch at hsd
  have hsd2 : j.online = false ∧ (b = true ∨ runAfterBlocked env s.completed j = false) := by
    simpa using hsd
  constructor
  · exact ⟨j, hj, rfl, hsd2.1, hsd2.2⟩
  · exact jobsInv_reach env mem0 s hnd hr j hj

/-- Witness for C1: in the `configZ` environment the initial dispatch sends
`A` to a worker from the seeded state; its only predecessor is the null
root. -/
theorem dispatch_safety_witness :
    (∃ j ∈ (initState envZ ([] : SharedMem Nat)).jobs, j.id = "A" ∧ j.online = false ∧
      (true = true ∨ runAfterBlocked envZ (initState envZ []).completed j = false)) ∧
    (∀ u ∈ predsIn envZ.tree "A",
      u ∈ (initState envZ ([] : SharedMem Nat)).completed ∨ u = nullOperatorId) :=
  dispatch_safety envZ [] (initState envZ []) (by decide) Reach.init true "A" (by decide)

/-- C1 counterexample: the claimed equivalence `ready(v) ↔ all predecessors
of v in G completed` fails.  For `[A, B{run_after: "Z"}]` (`Z` unknown — the
loader's run-after existence check is a `TODO`), the build keeps the chain
edge `A → B`, so after `A` completes the state with `B` registered is
reachable, every graph predecessor of `B` is completed, yet the scheduler
still blocks `B` because `"Z"` is never in the completion ledger. -/
theorem readiness_iff_counterexample :
    (networkBuild configZ (fun _ => "g")).toOption.map Prod.snd =
      some [⟨Src.one nullOperatorId, "A"⟩, ⟨Src.one "A", "B"⟩] ∧
    operatorTree [⟨Src.one nullOperatorId, "A"⟩, ⟨Src.one "A", "B"⟩] = .ok envZ.tree ∧
    Reach envZ [] stZ ∧
    (⟨"B", false, 1⟩ : JobR) ∈ stZ.jobs ∧
    ¬((runAfterBlocked envZ stZ.completed ⟨"B", false, 1⟩ = false) ↔
      (∀ u ∈ predsIn envZ.tree "B", u ∈ stZ.completed)) := by
  refine ⟨rfl, rfl, ?_, by decide, by decide⟩
  exact Reach.harvest (dispatchF envZ true (initState envZ [])) ["A"] stZ
    (Reach.dispatch (initState envZ []) true Reach.init) rfl

/-- C8: the worker publishes nothing on either path of a queued run.  On
failure the `except RuntimeError` handler reads `self._operator.exceptione`
— the `Operator` property is named `exception` — so an `AttributeError`
escapes: nothing is put on the return channel and neither the `error` nor the
`done` event is ever set.  On success the `put` argument
`self._operator.run().response` raises the same `AttributeError` (`run` has
no return statement), also uncaught by `except RuntimeError`, so the success
pair is never enqueued and `done` is never set either; only a worker without
a return queue completes and sets `done`. -/
theorem worker_error_path_loses_error :
    workerRun failingOp (0 : Nat) true =
      ⟨[], false, false, some "AttributeError: exceptione"⟩ ∧
    workerRun okOp (0 : Nat) true = ⟨[], false, false, some responseAttributeError⟩ ∧
    workerRun okOp (0 : Nat) false = ⟨[], false, true, none⟩ ∧
    operatorAttr failingOp "exception" = some "ZeroDivisionError" ∧
    operatorAttr failingOp "exceptione" = none :=
  ⟨rfl, rfl, rfl, rfl, rfl⟩

end Governor
